import Mathlib

/-!
# Verification of `src/yolo/convert_yolo11_to_coreml.py`

A shallow embedding of the conversion utility: a single command-line script
that parses flags, resolves a weights identifier, loads a model through an
external library and invokes its export routine.

Strings are modelled as `List Char`.  The observable behaviour of one process
invocation is modelled as a trace of events (stdout/stderr prints, the import
attempt, the external load and export calls, plus a marker event for the point
in program order where the output base name is computed) together with an
outcome (normal or argparse exit with a code, or an uncaught exception).
The external world (whether the `ultralytics` import succeeds, whether the
load and export calls succeed, and what the export returns) is a parameter.
-/

namespace Yolo

/-- Strings of the embedding: Python `str` values as lists of characters. -/
abbrev Str := List Char

/-! ## `pathlib` fragment

The script uses `pathlib.Path(x).with_suffix("").name`.  We embed the POSIX
`PurePath` behaviour that this composition depends on: a path's `name` is its
last component after dropping empty components and `.` components, a suffix
is a final dot-segment whose dot is neither the first nor the last character
of the name, and `with_suffix("")` drops that suffix (raising `ValueError`
when the name is empty, modelled as `none`). -/

/-- Index of the last `'.'` in a character list, if any
(CPython `str.rfind('.')`, restricted to found/not-found plus position). -/
def rfindDot : Str → Option Nat
  | [] => none
  | c :: rest =>
    match rfindDot rest with
    | some i => some (i + 1)
    | none => if c = '.' then some 0 else none

/-- CPython `PurePath.stem` semantics on a file name: strip the final
dot-suffix when its dot is at position `i` with `0 < i < len - 1`,
otherwise keep the name unchanged (leading dots and trailing dots are
not suffix separators). -/
def stem (name : Str) : Str :=
  match rfindDot name with
  | none => name
  | some i => if 0 < i ∧ i + 1 < name.length then name.take i else name

/-- Split a character list at every `'/'` (CPython `str.split('/')`):
always returns at least one chunk. -/
def splitSlash : Str → List Str
  | [] => [[]]
  | c :: rest =>
    if c = '/' then
      [] :: splitSlash rest
    else
      match splitSlash rest with
      | [] => [[c]]
      | p :: ps => (c :: p) :: ps

/-- The components of a POSIX `PurePath`: slash-separated chunks with empty
chunks and lone-`.` chunks dropped (pathlib normalisation). -/
def pathParts (s : Str) : List Str :=
  (splitSlash s).filter (fun p => !p.isEmpty && !(p == ['.']))

/-- `PurePath(s).name`: the last path component, or the empty string when
there is none (e.g. for `"/"` or `""`). -/
def pathName (s : Str) : Str :=
  ((pathParts s).getLast?).getD []

/-- `pathlib.Path(s).with_suffix("").name` as used on lines 45 and 47 of the
script: `none` models the `ValueError` that `with_suffix` raises when the
path has an empty name. -/
def withSuffixEmptyName (s : Str) : Option Str :=
  if pathName s = [] then none else some (stem (pathName s))

/-! ## Argument parsing (`parse_args`, lines 18–26) -/

/-- The `choices` list of the `--size` argument (line 20). -/
def sizeChoices : List Str :=
  ["n".toList, "s".toList, "m".toList, "l".toList, "x".toList]

/-- The parsed namespace: one field per `add_argument` call, with the types
argparse produces (`--imgsz` has `type=int`; `--half`/`--nms` are
`BooleanOptionalAction` flags). -/
structure Args where
  size : Str
  weights : Str
  imgsz : Int
  half : Bool
  nms : Bool
  output : Str
deriving Repr, DecidableEq

/-- The command-line inputs of one invocation, at the granularity the script
observes them: for each flag, either an explicitly supplied value or absence
(argparse then uses the declared default).  The `type=int` token conversion
of `--imgsz` is taken as given, so the field carries the converted integer. -/
structure RawArgs where
  size : Option Str
  weights : Option Str
  imgsz : Option Int
  half : Option Bool
  nms : Option Bool
  output : Option Str
deriving Repr, DecidableEq

/-- `parse_args` (lines 18–26): defaults are `size="l"`, `weights=""`,
`imgsz=640`, `half=True`, `nms=True`, `output=""`; the only validation is
the `choices` check on `--size` — `none` models the argparse rejection
(usage message on stderr and `SystemExit(2)`). -/
def parse_args (r : RawArgs) : Option Args :=
  let size := r.size.getD ("l".toList)
  if size ∈ sizeChoices then
    some ⟨size, r.weights.getD [], r.imgsz.getD 640,
          r.half.getD true, r.nms.getD true, r.output.getD []⟩
  else
    none

/-! ## The body of `main` (lines 29–63) -/

/-- `weights_path = args.weights or f"yolo11{args.size}.pt"` (line 38):
Python string truthiness means the explicit value wins exactly when it is
non-empty. -/
def resolveWeights (args : Args) : Str :=
  if args.weights = [] then
    "yolo11".toList ++ args.size ++ ".pt".toList
  else
    args.weights

/-- Lines 44–47: the output base name, from `--output` when non-empty,
otherwise from the weights path. -/
def deriveOutputName (output weights_path : Str) : Option Str :=
  if output = [] then
    withSuffixEmptyName weights_path
  else
    withSuffixEmptyName output

/-- Python `str(bool)`. -/
def pyBool : Bool → Str
  | true => "True".toList
  | false => "False".toList

/-- The stderr message of line 35. -/
def ultralyticsMsg : Str :=
  "Ultralytics not installed in this environment. Activate venv and install ultralytics.".toList

/-- The argparse-generated usage/error text printed on a `--size` choices
violation.  Its exact wording is produced inside argparse, not by this
script; only its presence on stderr matters here. -/
def argparseErrMsg : Str :=
  "usage/error text generated by argparse".toList

/-- The stdout message of line 40. -/
def loadingMsg (weights_path : Str) : Str :=
  "Loading YOLO11 weights: ".toList ++ weights_path

/-- The stdout message of lines 49–52. -/
def exportingMsg (name : Str) (imgsz : Int) (half nms : Bool) : Str :=
  "Exporting to CoreML (.mlpackage) as: ".toList ++ name
    ++ ".mlpackage | imgsz=".toList ++ (toString imgsz).toList
    ++ " half=".toList ++ pyBool half
    ++ " nms=".toList ++ pyBool nms

/-- One observable step of an invocation.  `resolveOutput` marks the point in
program order at which lines 44–47 compute the output base name. -/
inductive Event where
  | printOut : Str → Event
  | printErr : Str → Event
  | importAttempt : Event
  | load : Str → Event
  | exportCall : (format : Str) → (nms : Bool) → (imgsz : Int) → (half : Bool) → Event
  | resolveOutput : Str → Event
deriving Repr, DecidableEq

/-- How the process ends: a normal or argparse exit with a code, or an
uncaught exception propagating out of `main` (the interpreter then exits
with a non-zero status). -/
inductive Outcome where
  | exited : Nat → Outcome
  | raised : Outcome
deriving Repr, DecidableEq

/-- The behaviour of the external world during one invocation: whether
`from ultralytics import YOLO` succeeds, whether `YOLO(weights_path)`
succeeds for a given path, whether `model.export(...)` succeeds, and the
descriptor it returns. -/
structure World where
  importOk : Bool
  loadOk : Str → Bool
  exportOk : Bool
  exportResult : Str

/-- `main` after successful argument parsing (lines 32–63), statement by
statement: try the import (on failure print to stderr and re-raise);
resolve the weights path; print the loading message; call `YOLO`; compute
the output name (lines 44–47, which can raise `ValueError` on an empty
path name); print the exporting message; call `model.export(format="coreml",
nms=bool(args.nms), imgsz=int(args.imgsz), half=bool(args.half))`; print
the completion message and the export result. -/
def runParsed (args : Args) (w : World) : List Event × Outcome :=
  if w.importOk then
    let weights_path := resolveWeights args
    let evs := [Event.importAttempt, Event.printOut (loadingMsg weights_path),
                Event.load weights_path]
    if w.loadOk weights_path then
      match deriveOutputName args.output weights_path with
      | none => (evs, Outcome.raised)
      | some name =>
        let evs2 := evs ++ [Event.resolveOutput name,
          Event.printOut (exportingMsg name args.imgsz args.half args.nms)]
        let evs3 := evs2 ++ [Event.exportCall ("coreml".toList) args.nms args.imgsz args.half]
        if w.exportOk then
          (evs3 ++ [Event.printOut ("Export complete.".toList),
                    Event.printOut w.exportResult], Outcome.exited 0)
        else
          (evs3, Outcome.raised)
    else
      (evs, Outcome.raised)
  else
    ([Event.importAttempt, Event.printErr ultralyticsMsg], Outcome.raised)

/-- A whole invocation: `parse_args` (argparse exits with status 2 on a
choices violation, after printing to stderr) followed by the body of
`main`. -/
def run (r : RawArgs) (w : World) : List Event × Outcome :=
  match parse_args r with
  | none => ([Event.printErr argparseErrMsg], Outcome.exited 2)
  | some args => runParsed args w

/-- `a` occurs (at least once) before some later occurrence of `b` in the
trace `t`. -/
abbrev inOrder (a b : Event) (t : List Event) : Prop :=
  List.Sublist [a, b] t

/-! ## Concrete invocations and worlds used in the theorems -/

/-- The default invocation: no flags supplied. -/
def rawDefault : RawArgs := ⟨none, none, none, none, none, none⟩

/-- The invocation `--no-half --no-nms --imgsz 320`. -/
def rawNoHalfNoNms : RawArgs := ⟨none, none, some 320, some false, some false, none⟩

/-- A world in which the import, the load and the export all succeed. -/
def okWorld : World := ⟨true, fun _ => true, true, "export-descriptor".toList⟩

/-- A world in which the `ultralytics` import fails. -/
def importFailWorld : World := ⟨false, fun _ => true, true, "export-descriptor".toList⟩

/-- A world in which every `YOLO(weights_path)` call fails. -/
def loadFailWorld : World := ⟨true, fun _ => false, true, "export-descriptor".toList⟩

/-- A world in which the export call fails. -/
def exportFailWorld : World := ⟨true, fun _ => true, false, "export-descriptor".toList⟩

/-- Modelled from the spec: claim C3 reads the output base name, when
`--output` is non-empty, as the whole `--output` value with its extension
stripped (no extraction of the final filename component), and otherwise as
the weights identifier's filename component with its extension stripped. -/
def specOutputBaseC3 (args : Args) : Str :=
  if args.output = [] then
    stem (pathName (resolveWeights args))
  else
    stem args.output

/-- The parsed namespace of the default invocation. -/
def argsDefault : Args := ⟨"l".toList, [], 640, true, true, []⟩

/-- The invocation `--size q` (not one of the five size choices). -/
def rawBadSize : RawArgs := ⟨some ("q".toList), none, none, none, none, none⟩

/-- The invocation `--size n`. -/
def rawSizeN : RawArgs := ⟨some ("n".toList), none, none, none, none, none⟩

/-- The invocation `--imgsz 0` (argparse converts the token `"0"` with
`int` and accepts it). -/
def rawImgszZero : RawArgs := ⟨none, none, some 0, none, none, none⟩

/-- The parsed namespace of `--imgsz 0`. -/
def argsImgszZero : Args := ⟨"l".toList, [], 0, true, true, []⟩

/-- The invocation `--output dir/foo.mlpackage`. -/
def rawOutputDir : RawArgs := ⟨none, none, none, none, none, some ("dir/foo.mlpackage".toList)⟩

/-- The parsed namespace of `--output dir/foo.mlpackage`. -/
def argsOutputDir : Args := ⟨"l".toList, [], 640, true, true, "dir/foo.mlpackage".toList⟩

/-! ## Helper lemmas: branch characterisations of one invocation -/

theorem run_parse_none {r : RawArgs} {w : World} (h : parse_args r = none) :
    run r w = ([Event.printErr argparseErrMsg], Outcome.exited 2) := by
  simp [run, h]

theorem run_parse_some {r : RawArgs} {w : World} {a : Args} (h : parse_args r = some a) :
    run r w = runParsed a w := by
  simp [run, h]

theorem runParsed_import_fail {a : Args} {w : World} (hi : w.importOk = false) :
    runParsed a w = ([Event.importAttempt, Event.printErr ultralyticsMsg], Outcome.raised) := by
  simp [runParsed, hi]

theorem runParsed_load_fail {a : Args} {w : World} (hi : w.importOk = true)
    (hl : w.loadOk (resolveWeights a) = false) :
    runParsed a w =
      ([Event.importAttempt, Event.printOut (loadingMsg (resolveWeights a)),
        Event.load (resolveWeights a)], Outcome.raised) := by
  simp [runParsed, hi, hl]

theorem runParsed_derive_fail {a : Args} {w : World} (hi : w.importOk = true)
    (hl : w.loadOk (resolveWeights a) = true)
    (hd : deriveOutputName a.output (resolveWeights a) = none) :
    runParsed a w =
      ([Event.importAttempt, Event.printOut (loadingMsg (resolveWeights a)),
        Event.load (resolveWeights a)], Outcome.raised) := by
  simp [runParsed, hi, hl, hd]

theorem runParsed_export_fail {a : Args} {w : World} {name : Str} (hi : w.importOk = true)
    (hl : w.loadOk (resolveWeights a) = true)
    (hd : deriveOutputName a.output (resolveWeights a) = some name)
    (he : w.exportOk = false) :
    runParsed a w =
      ([Event.importAttempt, Event.printOut (loadingMsg (resolveWeights a)),
        Event.load (resolveWeights a), Event.resolveOutput name,
        Event.printOut (exportingMsg name a.imgsz a.half a.nms),
        Event.exportCall ("coreml".toList) a.nms a.imgsz a.half], Outcome.raised) := by
  simp [runParsed, hi, hl, hd, he]

theorem runParsed_export_ok {a : Args} {w : World} {name : Str} (hi : w.importOk = true)
    (hl : w.loadOk (resolveWeights a) = true)
    (hd : deriveOutputName a.output (resolveWeights a) = some name)
    (he : w.exportOk = true) :
    runParsed a w =
      ([Event.importAttempt, Event.printOut (loadingMsg (resolveWeights a)),
        Event.load (resolveWeights a), Event.resolveOutput name,
        Event.printOut (exportingMsg name a.imgsz a.half a.nms),
        Event.exportCall ("coreml".toList) a.nms a.imgsz a.half,
        Event.printOut ("Export complete.".toList),
        Event.printOut w.exportResult], Outcome.exited 0) := by
  simp [runParsed, hi, hl, hd, he]

theorem parse_args_some_elim {r : RawArgs} {a : Args} (hp : parse_args r = some a) :
    a = ⟨r.size.getD ("l".toList), r.weights.getD [], r.imgsz.getD 640,
         r.half.getD true, r.nms.getD true, r.output.getD []⟩ := by
  unfold parse_args at hp
  dsimp only at hp
  split at hp
  · exact (Option.some.inj hp).symm
  · cases hp

theorem parse_args_size_mem {r : RawArgs} {a : Args} (hp : parse_args r = some a) :
    a.size ∈ sizeChoices := by
  unfold parse_args at hp
  dsimp only at hp
  split at hp
  · rw [← Option.some.inj hp]
    assumption
  · cases hp

theorem withSuffixEmptyName_some {s x : Str} (h : withSuffixEmptyName s = some x) :
    x = stem (pathName s) := by
  unfold withSuffixEmptyName at h
  split at h
  · cases h
  · exact (Option.some.inj h).symm

theorem exportCall_mem {a : Args} {w : World} {f : Str} {n : Bool} {i : Int} {h : Bool}
    (hm : Event.exportCall f n i h ∈ (runParsed a w).1) :
    f = "coreml".toList ∧ n = a.nms ∧ i = a.imgsz ∧ h = a.half := by
  cases hi : w.importOk with
  | false => rw [runParsed_import_fail hi] at hm; simp at hm
  | true =>
    cases hl : w.loadOk (resolveWeights a) with
    | false => rw [runParsed_load_fail hi hl] at hm; simp at hm
    | true =>
      cases hd : deriveOutputName a.output (resolveWeights a) with
      | none => rw [runParsed_derive_fail hi hl hd] at hm; simp at hm
      | some name =>
        cases he : w.exportOk with
        | false =>
          rw [runParsed_export_fail hi hl hd he] at hm
          simp at hm
          exact hm
        | true =>
          rw [runParsed_export_ok hi hl hd he] at hm
          simp at hm
          exact hm

theorem load_mem {a : Args} {w : World} {p : Str}
    (hm : Event.load p ∈ (runParsed a w).1) : p = resolveWeights a := by
  cases hi : w.importOk with
  | false => rw [runParsed_import_fail hi] at hm; simp at hm
  | true =>
    cases hl : w.loadOk (resolveWeights a) with
    | false => rw [runParsed_load_fail hi hl] at hm; simp at hm; exact hm
    | true =>
      cases hd : deriveOutputName a.output (resolveWeights a) with
      | none => rw [runParsed_derive_fail hi hl hd] at hm; simp at hm; exact hm
      | some name =>
        cases he : w.exportOk with
        | false => rw [runParsed_export_fail hi hl hd he] at hm; simp at hm; exact hm
        | true => rw [runParsed_export_ok hi hl hd he] at hm; simp at hm; exact hm

theorem resolveOutput_mem {a : Args} {w : World} {n : Str}
    (hm : Event.resolveOutput n ∈ (runParsed a w).1) :
    deriveOutputName a.output (resolveWeights a) = some n := by
  cases hi : w.importOk with
  | false => rw [runParsed_import_fail hi] at hm; simp at hm
  | true =>
    cases hl : w.loadOk (resolveWeights a) with
    | false => rw [runParsed_load_fail hi hl] at hm; simp at hm
    | true =>
      cases hd : deriveOutputName a.output (resolveWeights a) with
      | none => rw [runParsed_derive_fail hi hl hd] at hm; simp at hm
      | some name =>
        cases he : w.exportOk with
        | false =>
          rw [runParsed_export_fail hi hl hd he] at hm
          simp at hm
          exact congrArg some hm.symm
        | true =>
          rw [runParsed_export_ok hi hl hd he] at hm
          simp at hm
          exact congrArg some hm.symm

/-! ## Helper lemmas: suffix stripping and path components -/

theorem rfindDot_eq_none {t : Str} (h : '.' ∉ t) : rfindDot t = none := by
  induction t with
  | nil => rfl
  | cons c rest ih =>
    rw [List.mem_cons, not_or] at h
    unfold rfindDot
    rw [ih h.2, if_neg (fun hc => h.1 hc.symm)]

theorem rfindDot_append {s t : Str} (h : rfindDot t = none) :
    rfindDot (s ++ '.' :: t) = some s.length := by
  induction s with
  | nil => simp [rfindDot, h]
  | cons c s ih => simp [rfindDot, ih]

theorem stem_append {s t : Str} (hs : s ≠ []) (ht : t ≠ []) (hdot : '.' ∉ t) :
    stem (s ++ '.' :: t) = s := by
  have h1 : 0 < s.length := List.length_pos.mpr hs
  have h2 : s.length + 1 < (s ++ '.' :: t).length := by
    have := List.length_pos.mpr ht
    simp only [List.length_append, List.length_cons]
    omega
  unfold stem
  rw [rfindDot_append (rfindDot_eq_none hdot)]
  dsimp only
  rw [if_pos ⟨h1, h2⟩]
  exact List.take_left s ('.' :: t)

theorem splitSlash_cons_slash (rest : Str) :
    splitSlash ('/' :: rest) = [] :: splitSlash rest := by
  simp [splitSlash]

theorem splitSlash_cons_other {c : Char} (h : c ≠ '/') (rest : Str) {p : Str} {ps : List Str}
    (hrest : splitSlash rest = p :: ps) : splitSlash (c :: rest) = (c :: p) :: ps := by
  unfold splitSlash
  rw [if_neg h, hrest]

theorem splitSlash_ne_nil (s : Str) : splitSlash s ≠ [] := by
  cases s with
  | nil => simp [splitSlash]
  | cons c rest =>
    unfold splitSlash
    by_cases h : c = '/'
    · simp [h]
    · rw [if_neg h]
      cases hs : splitSlash rest <;> simp

theorem splitSlash_append (xs ys : Str) :
    splitSlash (xs ++ '/' :: ys) = splitSlash xs ++ splitSlash ys := by
  induction xs with
  | nil => simp [splitSlash_cons_slash, splitSlash]
  | cons c xs ih =>
    by_cases h : c = '/'
    · subst h
      rw [List.cons_append, splitSlash_cons_slash, splitSlash_cons_slash, ih, List.cons_append]
    · cases hs : splitSlash xs with
      | nil => exact absurd hs (splitSlash_ne_nil xs)
      | cons p ps =>
        have h1 : splitSlash (xs ++ '/' :: ys) = p :: (ps ++ splitSlash ys) := by
          rw [ih, hs]
          rfl
        rw [List.cons_append, splitSlash_cons_other h _ h1, splitSlash_cons_other h _ hs,
            List.cons_append]

theorem pathParts_append (xs ys : Str) :
    pathParts (xs ++ '/' :: ys) = pathParts xs ++ pathParts ys := by
  unfold pathParts
  rw [splitSlash_append, List.filter_append]

theorem pathName_append {xs ys : Str} (h : pathName ys ≠ []) :
    pathName (xs ++ '/' :: ys) = pathName ys := by
  have hne : pathParts ys ≠ [] := by
    intro hnil
    exact h (by simp [pathName, hnil])
  unfold pathName
  rw [pathParts_append, List.getLast?_append_of_ne_nil _ hne]

theorem withSuffixEmptyName_append {xs ys : Str} (h : pathName ys ≠ []) :
    withSuffixEmptyName (xs ++ '/' :: ys) = withSuffixEmptyName ys := by
  unfold withSuffixEmptyName
  rw [pathName_append h]

/-! ## The claims -/

/-- C1: every export call in any invocation's trace carries format `"coreml"`,
the parsed `--nms` value, the parsed `--imgsz` value and the parsed `--half`
value; in particular the default invocation exports with `imgsz=640`,
`half=True`, `nms=True`, and `--no-half --no-nms --imgsz 320` exports with
`imgsz=320`, `half=False`, `nms=False`. -/
theorem spec_c1 (r : RawArgs) (w : World) (a : Args) (f : Str) (n : Bool) (i : Int) (h : Bool)
    (hp : parse_args r = some a)
    (hm : Event.exportCall f n i h ∈ (run r w).1) :
    (f = "coreml".toList ∧ n = a.nms ∧ i = a.imgsz ∧ h = a.half) ∧
    Event.exportCall ("coreml".toList) true 640 true ∈ (run rawDefault okWorld).1 ∧
    Event.exportCall ("coreml".toList) false 320 false ∈ (run rawNoHalfNoNms okWorld).1 := by
  rw [run_parse_some hp] at hm
  exact ⟨exportCall_mem hm, by decide, by decide⟩

/-- Witness for C1: the default invocation in a fully successful world. -/
theorem spec_c1_witness :
    ((("coreml".toList : Str) = "coreml".toList ∧ true = argsDefault.nms ∧
      (640 : Int) = argsDefault.imgsz ∧ true = argsDefault.half) ∧
     Event.exportCall ("coreml".toList) true 640 true ∈ (run rawDefault okWorld).1 ∧
     Event.exportCall ("coreml".toList) false 320 false ∈ (run rawNoHalfNoNms okWorld).1) :=
  spec_c1 rawDefault okWorld argsDefault ("coreml".toList) true 640 true (by decide) (by decide)

/-- C2: every load call in any invocation's trace carries the explicit
`--weights` value when that is non-empty, and `"yolo11" ++ size ++ ".pt"`
otherwise, with the parsed size always among the five variants. -/
theorem spec_c2 (r : RawArgs) (w : World) (a : Args) (p : Str)
    (hp : parse_args r = some a)
    (hm : Event.load p ∈ (run r w).1) :
    a.size ∈ sizeChoices ∧
    (a.weights ≠ [] → p = a.weights) ∧
    (a.weights = [] → p = "yolo11".toList ++ a.size ++ ".pt".toList) := by
  rw [run_parse_some hp] at hm
  have hw := load_mem hm
  refine ⟨parse_args_size_mem hp, ?_, ?_⟩ <;> intro hcase <;> rw [hw] <;> unfold resolveWeights
  · rw [if_neg hcase]
  · rw [if_pos hcase]

/-- Witness for C2: the default invocation loads `"yolo11l.pt"`. -/
theorem spec_c2_witness :
    argsDefault.size ∈ sizeChoices ∧
    (argsDefault.weights ≠ [] → ("yolo11l.pt".toList : Str) = argsDefault.weights) ∧
    (argsDefault.weights = [] →
      ("yolo11l.pt".toList : Str) = "yolo11".toList ++ argsDefault.size ++ ".pt".toList) :=
  spec_c2 rawDefault okWorld argsDefault ("yolo11l.pt".toList) (by decide) (by decide)

/-- C3, corrected: the claim reads the base name, for a non-empty `--output`,
as the whole `--output` value with its extension stripped; the script instead
takes only the final filename component.  At `--output dir/foo.mlpackage`
the script derives `"foo"`, not `"dir/foo"`. -/
theorem spec_c3_counterexample :
    parse_args rawOutputDir = some argsOutputDir ∧
    Event.resolveOutput ("foo".toList) ∈ (run rawOutputDir okWorld).1 ∧
    ("foo".toList : Str) ≠ specOutputBaseC3 argsOutputDir := by
  refine ⟨by decide, by decide, by decide⟩

/-- C3, amended: the derived output base name is the final filename component
of the `--output` value with its extension stripped when `--output` is
non-empty, and otherwise the final filename component of the resolved weights
identifier with its extension stripped; e.g. `--output foo.mlpackage` yields
`"foo"` and the weights identifier `yolo11l.pt` yields `"yolo11l"`. -/
theorem spec_c3_amended (r : RawArgs) (w : World) (a : Args) (n : Str)
    (hp : parse_args r = some a)
    (hm : Event.resolveOutput n ∈ (run r w).1) :
    ((a.output ≠ [] → n = stem (pathName a.output)) ∧
     (a.output = [] → n = stem (pathName (resolveWeights a)))) ∧
    deriveOutputName ("foo.mlpackage".toList) ("yolo11l.pt".toList) = some ("foo".toList) ∧
    deriveOutputName [] ("yolo11l.pt".toList) = some ("yolo11l".toList) := by
  rw [run_parse_some hp] at hm
  have hd := resolveOutput_mem hm
  unfold deriveOutputName at hd
  refine ⟨⟨?_, ?_⟩, by decide, by decide⟩ <;> intro hcase
  · rw [if_neg hcase] at hd
    exact withSuffixEmptyName_some hd
  · rw [if_pos hcase] at hd
    exact withSuffixEmptyName_some hd

/-- Witness for C3 (amended): the default invocation derives `"yolo11l"`. -/
theorem spec_c3_witness :
    (((argsDefault.output ≠ []) → ("yolo11l".toList : Str) = stem (pathName argsDefault.output)) ∧
     ((argsDefault.output = []) →
       ("yolo11l".toList : Str) = stem (pathName (resolveWeights argsDefault)))) ∧
    deriveOutputName ("foo.mlpackage".toList) ("yolo11l.pt".toList) = some ("foo".toList) ∧
    deriveOutputName [] ("yolo11l.pt".toList) = some ("yolo11l".toList) :=
  spec_c3_amended rawDefault okWorld argsDefault ("yolo11l".toList) (by decide) (by decide)

/-- C4: when the `ultralytics` import fails (after successful parsing), the
trace is exactly the import attempt and the stderr diagnostic, the exception
is re-raised (non-zero termination), and no load or export happens. -/
theorem spec_c4 (r : RawArgs) (w : World) (a : Args)
    (hp : parse_args r = some a) (hi : w.importOk = false) :
    run r w = ([Event.importAttempt, Event.printErr ultralyticsMsg], Outcome.raised) ∧
    Event.printErr ultralyticsMsg ∈ (run r w).1 ∧
    (run r w).2 = Outcome.raised ∧
    (∀ p, Event.load p ∉ (run r w).1) ∧
    (∀ f n i h, Event.exportCall f n i h ∉ (run r w).1) := by
  have heq : run r w = ([Event.importAttempt, Event.printErr ultralyticsMsg], Outcome.raised) := by
    rw [run_parse_some hp, runParsed_import_fail hi]
  rw [heq]
  refine ⟨rfl, by simp, rfl, ?_, ?_⟩ <;> intros <;> simp

/-- Witness for C4: the default invocation in a world without `ultralytics`. -/
theorem spec_c4_witness :
    run rawDefault importFailWorld =
      ([Event.importAttempt, Event.printErr ultralyticsMsg], Outcome.raised) ∧
    Event.printErr ultralyticsMsg ∈ (run rawDefault importFailWorld).1 ∧
    (run rawDefault importFailWorld).2 = Outcome.raised ∧
    (∀ p, Event.load p ∉ (run rawDefault importFailWorld).1) ∧
    (∀ f n i h, Event.exportCall f n i h ∉ (run rawDefault importFailWorld).1) :=
  spec_c4 rawDefault importFailWorld argsDefault (by decide) rfl

/-- C5: a failing load ends the invocation right at the load call with an
uncaught exception (no export, no retry, no recovery), and a failing export
ends it right at the export call with an uncaught exception (no completion
message, no retry): the trace in each case is exactly the linear prefix up to
the failing call. -/
theorem spec_c5 (r : RawArgs) (w : World) (a : Args)
    (hp : parse_args r = some a) (hi : w.importOk = true) :
    (w.loadOk (resolveWeights a) = false →
      run r w =
        ([Event.importAttempt, Event.printOut (loadingMsg (resolveWeights a)),
          Event.load (resolveWeights a)], Outcome.raised)) ∧
    (∀ name, w.loadOk (resolveWeights a) = true →
      deriveOutputName a.output (resolveWeights a) = some name →
      w.exportOk = false →
      run r w =
        ([Event.importAttempt, Event.printOut (loadingMsg (resolveWeights a)),
          Event.load (resolveWeights a), Event.resolveOutput name,
          Event.printOut (exportingMsg name a.imgsz a.half a.nms),
          Event.exportCall ("coreml".toList) a.nms a.imgsz a.half], Outcome.raised)) := by
  constructor
  · intro hl
    rw [run_parse_some hp, runParsed_load_fail hi hl]
  · intro name hl hd he
    rw [run_parse_some hp, runParsed_export_fail hi hl hd he]

/-- Witness for C5: the default invocation under a failing load and under a
failing export, in both cases ending in an uncaught exception. -/
theorem spec_c5_witness :
    (run rawDefault loadFailWorld).2 = Outcome.raised ∧
    (run rawDefault exportFailWorld).2 = Outcome.raised := by
  constructor
  · rw [(spec_c5 rawDefault loadFailWorld argsDefault (by decide) rfl).1 rfl]
  · rw [(spec_c5 rawDefault exportFailWorld argsDefault (by decide) rfl).2
        ("yolo11l".toList) rfl (by decide) rfl]

/-- C6, corrected: parsing does not enforce positivity of the image size —
the invocation `--imgsz 0` parses successfully and the constructed request
carries the non-positive value `0`. -/
theorem spec_c6_counterexample :
    parse_args rawImgszZero = some argsImgszZero ∧ ¬ (0 : Int) < argsImgszZero.imgsz := by
  refine ⟨by decide, by decide⟩

/-- C6, amended: the target image edge length carried in a successfully
constructed request equals the supplied `--imgsz` integer, or `640` when the
flag is absent; its positivity is not checked by argument parsing. -/
theorem spec_c6_amended (r : RawArgs) (a : Args) (hp : parse_args r = some a) :
    a.imgsz = r.imgsz.getD 640 := by
  rw [parse_args_some_elim hp]

/-- Witness for C6 (amended): the default invocation carries `imgsz = 640`. -/
theorem spec_c6_witness : argsDefault.imgsz = rawDefault.imgsz.getD 640 :=
  spec_c6_amended rawDefault argsDefault (by decide)

/-- C7, corrected: in the default invocation's trace the load call precedes
the resolution of the output base name, so the claimed order (resolve before
load) fails: the output name is not resolved before the model is loaded. -/
theorem spec_c7_counterexample :
    Event.load ("yolo11l.pt".toList) ∈ (run rawDefault okWorld).1 ∧
    Event.resolveOutput ("yolo11l".toList) ∈ (run rawDefault okWorld).1 ∧
    ¬ inOrder (Event.resolveOutput ("yolo11l".toList)) (Event.load ("yolo11l.pt".toList))
      (run rawDefault okWorld).1 := by
  refine ⟨by decide, by decide, by decide⟩

/-- C7, amended: the utility acquires the model handle from the external
library (step 3) first, and resolves the output base name (step 2) only
afterwards: in every trace containing the output-name resolution, the load
of the resolved weights occurs earlier. -/
theorem spec_c7_amended (r : RawArgs) (w : World) (a : Args) (n : Str)
    (hp : parse_args r = some a)
    (hm : Event.resolveOutput n ∈ (run r w).1) :
    Event.load (resolveWeights a) ∈ (run r w).1 ∧
    inOrder (Event.load (resolveWeights a)) (Event.resolveOutput n) (run r w).1 := by
  rw [run_parse_some hp] at hm ⊢
  cases hi : w.importOk with
  | false => rw [runParsed_import_fail hi] at hm; simp at hm
  | true =>
    cases hl : w.loadOk (resolveWeights a) with
    | false => rw [runParsed_load_fail hi hl] at hm; simp at hm
    | true =>
      cases hd : deriveOutputName a.output (resolveWeights a) with
      | none => rw [runParsed_derive_fail hi hl hd] at hm; simp at hm
      | some name =>
        cases he : w.exportOk with
        | false =>
          rw [runParsed_export_fail hi hl hd he] at hm ⊢
          simp at hm
          subst hm
          exact ⟨by simp, .cons _ (.cons _ (.cons₂ _ (.cons₂ _ (List.nil_sublist _))))⟩
        | true =>
          rw [runParsed_export_ok hi hl hd he] at hm ⊢
          simp at hm
          subst hm
          exact ⟨by simp, .cons _ (.cons _ (.cons₂ _ (.cons₂ _ (List.nil_sublist _))))⟩

/-- Witness for C7 (amended): in the default invocation the load of
`yolo11l.pt` precedes the resolution of `yolo11l`. -/
theorem spec_c7_witness :
    Event.load (resolveWeights argsDefault) ∈ (run rawDefault okWorld).1 ∧
    inOrder (Event.load (resolveWeights argsDefault))
      (Event.resolveOutput ("yolo11l".toList)) (run rawDefault okWorld).1 :=
  spec_c7_amended rawDefault okWorld argsDefault ("yolo11l".toList) (by decide) (by decide)

/-- C8: an explicit `--size` value outside {n,s,m,l,x} is rejected by
argument parsing — the process exits with status 2 after the argparse error
text, with no load and no export attempted — while every value in the set is
accepted. -/
theorem spec_c8 (r : RawArgs) (w : World) (s : Str)
    (hs : r.size = some s) (hbad : s ∉ sizeChoices) :
    parse_args r = none ∧
    run r w = ([Event.printErr argparseErrMsg], Outcome.exited 2) ∧
    (∀ p, Event.load p ∉ (run r w).1) ∧
    (∀ f n i h, Event.exportCall f n i h ∉ (run r w).1) ∧
    (∀ r2 s2, r2.size = some s2 → s2 ∈ sizeChoices → (parse_args r2).isSome = true) := by
  have hnone : parse_args r = none := by
    unfold parse_args
    rw [hs]
    exact if_neg hbad
  have heq := run_parse_none (w := w) hnone
  rw [heq]
  refine ⟨hnone, rfl, ?_, ?_, ?_⟩
  · intro p
    simp
  · intro f n i h
    simp
  · intro r2 s2 hs2 hmem
    unfold parse_args
    rw [hs2]
    simp [hmem]

/-- Witness for C8: `--size q` is rejected with exit status 2 and `--size n`
is accepted. -/
theorem spec_c8_witness :
    parse_args rawBadSize = none ∧
    run rawBadSize okWorld = ([Event.printErr argparseErrMsg], Outcome.exited 2) ∧
    (∀ p, Event.load p ∉ (run rawBadSize okWorld).1) ∧
    (∀ f n i h, Event.exportCall f n i h ∉ (run rawBadSize okWorld).1) ∧
    (∀ r2 s2, r2.size = some s2 → s2 ∈ sizeChoices → (parse_args r2).isSome = true) :=
  spec_c8 rawBadSize okWorld ("q".toList) rfl (by decide)

/-- C9: extension stripping removes only the final dot-suffix — for any
non-empty name part `s` and non-empty dot-free extension `t`, the stem of
`s ++ "." ++ t` is `s`; in particular the weights identifier `model.v2.pt`
derives the base name `model.v2` and `--output foo.tar.gz` derives
`foo.tar`. -/
theorem spec_c9 (s t : Str) (hs : s ≠ []) (ht : t ≠ []) (hdot : '.' ∉ t) :
    stem (s ++ '.' :: t) = s ∧
    deriveOutputName [] ("model.v2.pt".toList) = some ("model.v2".toList) ∧
    deriveOutputName ("foo.tar.gz".toList) ("yolo11l.pt".toList) = some ("foo.tar".toList) :=
  ⟨stem_append hs ht hdot, by decide, by decide⟩

/-- Witness for C9: stripping `.pt` from `model.v2.pt` keeps `model.v2`. -/
theorem spec_c9_witness :
    stem (("model.v2".toList : Str) ++ '.' :: ("pt".toList)) = "model.v2".toList ∧
    deriveOutputName [] ("model.v2.pt".toList) = some ("model.v2".toList) ∧
    deriveOutputName ("foo.tar.gz".toList) ("yolo11l.pt".toList) = some ("foo.tar".toList) :=
  spec_c9 ("model.v2".toList) ("pt".toList) (by decide) (by decide) (by decide)

/-- C10: the derived output base name keeps only the final filename
component — prepending a directory prefix to the stripped source string does
not change the result of the `with_suffix("").name` step; in particular
`--output dir/foo.mlpackage` derives `"foo"` and `--weights /a/b/c.pt` with
no `--output` derives `"c"`. -/
theorem spec_c10 (xs ys : Str) (h : pathName ys ≠ []) :
    withSuffixEmptyName (xs ++ '/' :: ys) = withSuffixEmptyName ys ∧
    pathName (xs ++ '/' :: ys) = pathName ys ∧
    deriveOutputName ("dir/foo.mlpackage".toList) ("yolo11l.pt".toList) = some ("foo".toList) ∧
    deriveOutputName [] ("/a/b/c.pt".toList) = some ("c".toList) :=
  ⟨withSuffixEmptyName_append h, pathName_append h, by decide, by decide⟩

/-- Witness for C10: the directory prefix `dir` is discarded from
`dir/foo.mlpackage`. -/
theorem spec_c10_witness :
    withSuffixEmptyName (("dir".toList : Str) ++ '/' :: ("foo.mlpackage".toList)) =
      withSuffixEmptyName ("foo.mlpackage".toList) ∧
    pathName (("dir".toList : Str) ++ '/' :: ("foo.mlpackage".toList)) =
      pathName ("foo.mlpackage".toList) ∧
    deriveOutputName ("dir/foo.mlpackage".toList) ("yolo11l.pt".toList) = some ("foo".toList) ∧
    deriveOutputName [] ("/a/b/c.pt".toList) = some ("c".toList) :=
  spec_c10 ("dir".toList) ("foo.mlpackage".toList) (by decide)

end Yolo
